import Mathlib

/-!
Verification of the asynchronous job lifecycle manager and disk-backed
run-progress reconstruction engine of `pipefunc/mcp.py`.

The Python module is shallowly embedded: the global `job_registry` dict is an
explicit association list in insertion order, the MCP tool bodies
(`_check_job_status`, `_cancel_job`, `_list_jobs`, `_progress_info_from_disk`,
`_list_historical_runs`) are pure Lean functions over that state and over an
abstract model of the filesystem, and a Python exception escaping a function is
an `Except.error`.  External collaborators (the `asyncio.Task` handle, the
progress `Status` objects, `FileArray`, `RunInfo`) are modelled as data
recording exactly the observations the embedded code makes of them.
-/

set_option maxHeartbeats 1000000

namespace PipefuncMcp

/-- Rendered pipeline results: the per-output payload built by the result
conversion loop of `_check_job_status` (the `output`/`shape` dictionaries),
kept abstract as rendered key-value pairs. -/
abbrev RenderedResults := List (String × String)

/-- Model of the `asyncio.Task` held by `job.runner.task`.  Per the spec's
handle interface it exposes completion (`done()`), an optional captured
error (`exception()`, `none` when the task raised nothing), and the result
payload (meaningful once done with no exception). -/
structure AsyncTask where
  done : Bool
  exception : Option String
  result : RenderedResults
  deriving Repr, DecidableEq

/-- One entry of `job.runner.progress.progress_dict`: the live counters the
external execution engine exposes for one output, together with the recorded
return values of the collaborator methods `elapsed_time()` and
`remaining_time(...)` that `_check_job_status` calls on it. -/
structure ProgressStatus where
  progressVal : ℚ
  nCompleted : Nat
  nTotal : Option Nat
  nFailed : Nat
  elapsedTime : Option ℚ
  remainingTime : Option ℚ
  deriving Repr, DecidableEq

/-- The `JobInfo` dataclass of `pipefunc.mcp`.  The `runner : AsyncMap` field
is flattened into the two observations the module makes of it, `runner.task`
and `runner.progress` (an `Option`, guarded by an `assert` in
`_check_job_status`).  `status` is one of the string literals
`"running" | "completed" | "cancelled"` of the dataclass annotation. -/
structure JobInfo where
  task : AsyncTask
  progress : Option (List (String × ProgressStatus))
  startedAt : String
  runFolder : String
  status : String
  pipelineName : String
  deriving Repr, DecidableEq

/-- The global `job_registry : dict[str, JobInfo]`, as an association list in
insertion order (Python dicts preserve insertion order). -/
abbrev Registry := List (String × JobInfo)

/-- `job_registry.get(job_id)`. -/
def dictGet : Registry → String → Option JobInfo
  | [], _ => none
  | (k, v) :: rest, key => if k = key then some v else dictGet rest key

/-- `job_registry[job_id] = info`: replace in place when the key exists
(Python dict assignment keeps the key position), append otherwise. -/
def dictSet : Registry → String → JobInfo → Registry
  | [], key, v => [(key, v)]
  | (k, w) :: rest, key, v =>
    if k = key then (key, v) :: rest else (k, w) :: dictSet rest key v

/-- The dictionary `result_info` built by `_check_job_status` for a job found
in the registry (the final `str(...)` rendering is presentation only). -/
structure JobStatusResponse where
  jobId : String
  pipelineName : String
  status : String
  progress : List (String × ProgressStatus)
  runFolder : String
  startedAt : String
  errorMsg : Option String
  results : Option RenderedResults
  deriving Repr, DecidableEq

/-- The two structured responses `_check_job_status` can return:
`{"error": "Job not found"}`, or the full `result_info` dictionary. -/
inductive CheckResult where
  | notFound
  | response (r : JobStatusResponse)
  deriving Repr, DecidableEq

/-- `_check_job_status`.  `Except.error` models a Python exception escaping
the function body (here only the `assert job.runner.progress is not None`).
Mirrors the source: `status` is `"completed"` when `task.done()` else
`"running"`; the `error` field is `str(task.exception())` when the task is
done with a (truthy) exception and `None` otherwise; `results` is attached
exactly when the task is done and `task.exception()` is `None`. -/
def checkJobStatus (reg : Registry) (jobId : String) : Except String CheckResult :=
  match dictGet reg jobId with
  | none => .ok .notFound
  | some job =>
    match job.progress with
    | none => .error "AssertionError: job.runner.progress is not None"
    | some p =>
      .ok (.response
        { jobId := jobId
          pipelineName := job.pipelineName
          status := if job.task.done then "completed" else "running"
          progress := p
          runFolder := job.runFolder
          startedAt := job.startedAt
          errorMsg := if job.task.done && job.task.exception.isSome then job.task.exception else none
          results := if job.task.done && job.task.exception.isNone then some job.task.result else none })

/-- One element of the `jobs_info` list built by `_list_jobs`. -/
structure ListedJob where
  jobId : String
  pipelineName : String
  status : String
  runFolder : String
  startedAt : String
  hasError : Bool
  deriving Repr, DecidableEq

/-- The `{"jobs": [...], "total_count": ...}` response of `_list_jobs`. -/
structure JobsListing where
  jobs : List ListedJob
  totalCount : Nat
  deriving Repr, DecidableEq

/-- The `job_info` dictionary `_list_jobs` builds for one registry entry:
`status` is the stored `job.status` field, `has_error` is
`is_done and task.exception() is not None`. -/
def listedJob (jobId : String) (job : JobInfo) : ListedJob :=
  { jobId := jobId
    pipelineName := job.pipelineName
    status := job.status
    runFolder := job.runFolder
    startedAt := job.startedAt
    hasError := job.task.done && job.task.exception.isSome }

/-- `_list_jobs`: iterates the registry in insertion order.  The
`if not job_registry` early return coincides with the general case on an
empty registry. -/
def listJobs (reg : Registry) : JobsListing :=
  { jobs := reg.map (fun p => listedJob p.1 p.2)
    totalCount := (reg.map (fun p => listedJob p.1 p.2)).length }

/-- The structured responses of `_cancel_job`: `{"error": "Job not found"}`,
`{"status": "cancelled", "job_id": ...}`, or
`{"error": "Job not found or already completed", "job_id": ...}`. -/
inductive CancelResponse where
  | notFound
  | cancelled (jobId : String)
  | alreadyDone (jobId : String)
  deriving Repr, DecidableEq

/-- Observable outcome of `_cancel_job`: the response, the registry after the
call, and whether `task.cancel()` was invoked.  `task.cancel()` is a
cooperative cancellation request; it does not change the task state
synchronously, so only the request flag records it. -/
structure CancelOutcome where
  response : CancelResponse
  registry : Registry
  cancelRequested : Bool
  deriving Repr, DecidableEq

/-- `_cancel_job`.  Mirrors the source: unknown id returns the not-found
response; a job whose task is not done gets `task.cancel()` and
`job.status = "cancelled"`; a job whose task is already done is left
untouched and gets the already-completed error response. -/
def cancelJob (reg : Registry) (jobId : String) : CancelOutcome :=
  match dictGet reg jobId with
  | none => { response := .notFound, registry := reg, cancelRequested := false }
  | some job =>
    if !job.task.done then
      { response := .cancelled jobId
        registry := dictSet reg jobId { job with status := "cancelled" }
        cancelRequested := true }
    else
      { response := .alreadyDone jobId, registry := reg, cancelRequested := false }

/-- The `JobInfo` stored by `_execute_pipeline_async` at launch:
`status="running"`, the remaining fields as supplied. -/
def newJob (task : AsyncTask) (progress : Option (List (String × ProgressStatus)))
    (startedAt runFolder pipelineName : String) : JobInfo :=
  { task := task
    progress := progress
    startedAt := startedAt
    runFolder := runFolder
    status := "running"
    pipelineName := pipelineName }

/-- The operations that touch the registry or a job's task over a session:
`launch` is the registration step of `_execute_pipeline_async` (the fresh
`uuid4` id, the `AsyncMap` runner and the timestamp are parameters);
`cancel` is `_cancel_job`; `settle` is the environment event of the
background task finishing (normally, with an exception, or cancelled), which
flips `done()` to true exactly once and records the captured exception. -/
inductive Op where
  | launch (jobId : String) (task : AsyncTask)
      (progress : Option (List (String × ProgressStatus)))
      (startedAt runFolder pipelineName : String)
  | cancel (jobId : String)
  | settle (jobId : String) (exc : Option String) (res : RenderedResults)
  deriving Repr, DecidableEq

/-- Effect of one operation on the registry. -/
def step (reg : Registry) : Op → Registry
  | .launch jid t p s rf n => dictSet reg jid (newJob t p s rf n)
  | .cancel jid => (cancelJob reg jid).registry
  | .settle jid exc res =>
    match dictGet reg jid with
    | none => reg
    | some job =>
      if job.task.done then reg
      else dictSet reg jid { job with task := { done := true, exception := exc, result := res } }

/-- The registry reached from the empty initial registry by a sequence of
operations. -/
def runOps (ops : List Op) : Registry := ops.foldl step []

/-- The status string `_check_job_status` reports for a job id, when the call
returns a full response (`none` when the id is unknown or the call raises). -/
def reportedStatus (reg : Registry) (jobId : String) : Option String :=
  match checkJobStatus reg jobId with
  | .ok (.response r) => some r.status
  | _ => none

/-- The status string `_list_jobs` reports for a job id, read off the listing
it returns. -/
def listedStatus (reg : Registry) (jobId : String) : Option String :=
  ((listJobs reg).jobs.find? (fun j => j.jobId == jobId)).map (fun j => j.status)

/-- The progress value of one output in `_progress_info_from_disk`: a number
(Python float arithmetic is modelled exactly, over ℚ) or the `"unknown"`
sentinel used when the shape is unresolved. -/
inductive ProgressVal where
  | frac (q : ℚ)
  | unknown
  deriving Repr, DecidableEq

/-- Modelled from the spec: the storage backend of an array-backed output
(`FileArray`, a collaborator not among the sources under verification)
exposes a resolved-shape flag, a total element count equal to the product of
the dimensions, a linear completion mask with one flag per linear position
(a `true` flag marks a position still missing, so an output with no filled
positions has an all-true mask and `sum(mask)` counts the unfilled slots),
and the backing directory, recorded here as the sizes of the regular files
found below it by `folder.rglob("*")`. -/
structure FileArrayData where
  shape : List (Option Nat)
  maskLinear : List Bool
  fileSizes : List Nat
  deriving Repr, DecidableEq

/-- One value of the store built by `run_info.init_store()`: a `StorageBase`
(asserted to be a `FileArray`) or a plain `Path` of a single-file output,
recorded with whether it exists and its `stat().st_size`.  The runtime type
dispatch of `_progress_info_from_disk` is the exhaustive match on this sum. -/
inductive StoreData where
  | array (fa : FileArrayData)
  | singleFile (fileExists : Bool) (fileSize : Nat)
  deriving Repr, DecidableEq

/-- Modelled from the spec: `shape_is_resolved` — all dimensions are known. -/
def shapeIsResolved (shape : List (Option Nat)) : Bool := shape.all Option.isSome

/-- Modelled from the spec: `FileArray.size`, the product of the dimensions
(meaningful when the shape is resolved). -/
def faSize (fa : FileArrayData) : Nat := (fa.shape.filterMap id).prod

/-- `sum(data.mask_linear())`: the number of positions still missing. -/
def countMissing (fa : FileArrayData) : Nat := fa.maskLinear.count true

/-- The number of filled positions, derived from the completion mask. -/
def countFilled (fa : FileArrayData) : Nat := fa.maskLinear.count false

/-- The per-output body of the loop in `_progress_info_from_disk`, returning
the progress value and the byte count.  Mirrors the source: for a resolved
array shape, `progress = 1.0 - sum(mask_linear()) / size` (a zero size would
raise `ZeroDivisionError` in Python, modelled as an error); for an unresolved
shape, `progress = "unknown"`; in both array branches `nbytes` sums the
regular files under the folder.  For a single-file output, existence decides
between fraction one with the file size and fraction zero with zero bytes. -/
def inspectStore : StoreData → Except String (ProgressVal × Nat)
  | .array fa =>
    if shapeIsResolved fa.shape then
      if faSize fa = 0 then .error "ZeroDivisionError"
      else .ok (.frac (1 - (countMissing fa : ℚ) / (faSize fa : ℚ)), fa.fileSizes.sum)
    else .ok (.unknown, fa.fileSizes.sum)
  | .singleFile ex sz => if ex then .ok (.frac 1, sz) else .ok (.frac 0, 0)

/-- One entry of the `outputs` dictionary of `_progress_info_from_disk`:
`progress`, `complete = (progress == 1.0)` and `bytes`. -/
structure OutputProgress where
  progress : ProgressVal
  complete : Bool
  byteCount : Nat
  deriving Repr, DecidableEq

/-- The observations `_progress_info_from_disk` makes of a loaded `RunInfo`:
`all_output_names` paired with the store values `init_store()` yields for
them (the store covers every output name, so the keyed lookup is the
association itself). -/
structure RunInfoData where
  outputs : List (String × StoreData)
  deriving Repr, DecidableEq

/-- The loop of `_progress_info_from_disk`: builds the per-output records and
folds `all_complete` (initially true, vacuously true for zero outputs). -/
def progressOutputs : List (String × StoreData) → Except String (List (String × OutputProgress) × Bool)
  | [] => .ok ([], true)
  | (name, data) :: rest =>
    match inspectStore data with
    | .error msg => .error msg
    | .ok pv =>
      match progressOutputs rest with
      | .error msg => .error msg
      | .ok r =>
        .ok ((name, { progress := pv.1
                      complete := decide (pv.1 = ProgressVal.frac 1)
                      byteCount := pv.2 }) :: r.1,
             decide (pv.1 = ProgressVal.frac 1) && r.2)

/-- `_progress_info_from_disk`. -/
def progressInfoFromDisk (ri : RunInfoData) : Except String (List (String × OutputProgress) × Bool) :=
  progressOutputs ri.outputs

/-- One entry of `runs_folder.iterdir()`, with the observations
`_list_historical_runs` makes of it: whether it is a directory, whether the
run-metadata file `RunInfo.path(run_folder)` exists, that file's
`stat().st_mtime`, the outcome of `RunInfo.load` (`none` models the raised
exception of a corrupt run), and the outcome of
`json.loads(run_info_path.read_text())` (`none` models a parse error; a
parsed file carries its optional `pipefunc_version` field). -/
structure DirEntry where
  name : String
  isDir : Bool
  runInfoExists : Bool
  mtime : Nat
  loadResult : Option RunInfoData
  rawVersion : Option (Option String)
  deriving Repr, DecidableEq

/-- The root folder passed to `_list_historical_runs`. -/
structure RootDir where
  folder : String
  pathExists : Bool
  isDir : Bool
  entries : List DirEntry
  deriving Repr, DecidableEq

/-- One element of the returned `runs` list.  The scan loop creates it with
only `last_modified` and `run_folder`; the summarization loop fills the
remaining keys, so those are `Option`s, `none` meaning the key is absent
from the dictionary.  `last_modified` is the modification time: the ISO-8601
strings the code sorts compare lexicographically in the same order as the
underlying timestamps, so the numeric time models the sort key faithfully. -/
structure RunEntry where
  lastModified : Nat
  runFolder : String
  allComplete : Option Bool
  totalOutputs : Option Nat
  completedOutputs : Option Nat
  pipefuncVersion : Option String
  deriving Repr, DecidableEq

/-- The `_Runs` result dictionary of `_list_historical_runs`. -/
structure RunsListing where
  runs : List RunEntry
  totalCount : Nat
  folder : String
  scannedDirectories : Nat
  errorMsg : Option String
  deriving Repr, DecidableEq

/-- The partial run entry the scan loop appends for a candidate. -/
def bareEntry (folder : String) (d : DirEntry) : RunEntry :=
  { lastModified := d.mtime
    runFolder := folder ++ "/" ++ d.name
    allComplete := none
    totalOutputs := none
    completedOutputs := none
    pipefuncVersion := none }

/-- The first loop of `_list_historical_runs` over `runs_folder.iterdir()`:
counts every entry into `scanned_directories`, skips non-directories, tracks
the final value of the loop variable `run_info_path` (the metadata path of
the last directory iterated — the summarization loop later reads this stale
variable), skips directories without a metadata file, and collects the
candidates in iteration order.  Returns
(scanned count, stale `run_info_path` owner, candidates). -/
def scanPhase (folder : String) : List DirEntry → Nat × Option DirEntry × List (DirEntry × RunEntry)
  | [] => (0, none, [])
  | d :: rest =>
    let r := scanPhase folder rest
    if d.isDir then
      (r.1 + 1, (r.2.1).orElse (fun _ => some d),
       if d.runInfoExists then (d, bareEntry folder d) :: r.2.2 else r.2.2)
    else (r.1 + 1, r.2.1, r.2.2)

/-- Insertion step of the stable descending sort by `last_modified`
(`runs["runs"].sort(key=..., reverse=True)`): a new element goes after every
element whose key is greater than or equal to its own, which reproduces
Python's stable sort with `reverse=True`. -/
def insertDescByMtime (x : DirEntry × RunEntry) :
    List (DirEntry × RunEntry) → List (DirEntry × RunEntry)
  | [] => [x]
  | y :: ys =>
    if x.2.lastModified ≤ y.2.lastModified then y :: insertDescByMtime x ys
    else x :: y :: ys

/-- Stable sort, descending by `last_modified`, inserting left to right. -/
def sortDescByMtime (l : List (DirEntry × RunEntry)) : List (DirEntry × RunEntry) :=
  l.foldl (fun acc x => insertDescByMtime x acc) []

/-- The summarization loop of `_list_historical_runs` over the (sorted,
possibly truncated) entries.  Mirrors the source: `RunInfo.load` failing
skips the body (the bare entry stays in the list and `total_count` is not
incremented); on success the loop reads `run_info_path.read_text()` — the
stale variable from the scan loop, not the current entry's path — so a
missing stale file raises `FileNotFoundError` and an unparseable one raises
`JSONDecodeError`, both escaping the whole function; then the per-output
progress is computed and the entry's remaining keys are filled, with
`pipefunc_version` taken from the stale file's JSON. -/
def summarizeEntries (stale : Option DirEntry) :
    List (DirEntry × RunEntry) → Except String (List RunEntry × Nat)
  | [] => .ok ([], 0)
  | (d, e) :: rest =>
    match d.loadResult with
    | none =>
      match summarizeEntries stale rest with
      | .error msg => .error msg
      | .ok r => .ok (e :: r.1, r.2)
    | some ri =>
      match stale with
      | none => .error "NameError: run_info_path"
      | some sd =>
        if !sd.runInfoExists then .error "FileNotFoundError: run_info_path"
        else
          match sd.rawVersion with
          | none => .error "JSONDecodeError"
          | some ver =>
            match progressInfoFromDisk ri with
            | .error msg => .error msg
            | .ok op =>
              match summarizeEntries stale rest with
              | .error msg => .error msg
              | .ok r =>
                .ok ({ e with
                        allComplete := some op.2
                        totalOutputs := some op.1.length
                        completedOutputs := some (op.1.countP (fun o => o.2.complete))
                        pipefuncVersion := some (ver.getD "unknown") } :: r.1,
                     r.2 + 1)

/-- The truncation step `if max_runs is not None and max_runs > 0:
runs["runs"] = runs["runs"][:max_runs]`, applied between the sort and the
summarization loop. -/
def truncateRuns (maxRuns : Option Int) (l : List (DirEntry × RunEntry)) :
    List (DirEntry × RunEntry) :=
  match maxRuns with
  | some m => if 0 < m then l.take m.toNat else l
  | none => l

/-- The main path of `_list_historical_runs`, once the root folder was found
to exist and be a directory: scan, sort newest first, truncate, summarize. -/
def listHistoricalRunsMain (root : RootDir) (maxRuns : Option Int) : Except String RunsListing :=
  match summarizeEntries (scanPhase root.folder root.entries).2.1
      (truncateRuns maxRuns (sortDescByMtime (scanPhase root.folder root.entries).2.2)) with
  | .error msg => .error msg
  | .ok r =>
    .ok { runs := r.1, totalCount := r.2, folder := root.folder,
          scannedDirectories := (scanPhase root.folder root.entries).1, errorMsg := none }

/-- `_list_historical_runs`.  `Except.error` models a Python exception
escaping the function; the error strings inside the returned listing model
the structured `error` field for a missing or non-directory root. -/
def listHistoricalRuns (root : RootDir) (maxRuns : Option Int) : Except String RunsListing :=
  if !root.pathExists then
    .ok { runs := [], totalCount := 0, folder := root.folder, scannedDirectories := 0,
          errorMsg := some ("Folder " ++ root.folder ++ " does not exist") }
  else if !root.isDir then
    .ok { runs := [], totalCount := 0, folder := root.folder, scannedDirectories := 0,
          errorMsg := some (root.folder ++ " is not a directory") }
  else listHistoricalRunsMain root maxRuns

/-- The stored-status invariant: every registry reachable by the modelled
operations holds only jobs whose stored `status` is `"running"` or
`"cancelled"` — nothing in the module ever stores `"completed"` (or any
other value). -/
def statusOk (reg : Registry) : Prop :=
  ∀ p ∈ reg, p.2.status = "running" ∨ p.2.status = "cancelled"

/-- Descending order on the `last_modified` key, newest first. -/
def mtimeGE (a b : DirEntry × RunEntry) : Prop :=
  b.2.lastModified ≤ a.2.lastModified

/-- A freshly launched task: not yet done, no captured exception. -/
def t0 : AsyncTask := { done := false, exception := none, result := [] }

/-- A task that finished normally with a rendered result. -/
def doneTask : AsyncTask := { done := true, exception := none, result := [("out", "1")] }

def doneJob : JobInfo := newJob doneTask (some []) "2024-01-01T00:00:00+00:00" "runs/job_d" "Pipe"

def regDone : Registry := [("jd", doneJob)]

def jobC10 : JobInfo := newJob doneTask (some []) "2024-01-01T00:00:00+00:00" "runs/job_c10" "Pipe"

def regC10 : Registry := [("j10", jobC10)]

def faW : FileArrayData :=
  { shape := [some 2, some 2], maskLinear := [false, true, false, false], fileSizes := [3, 4] }

def c1Ops : List Op :=
  [Op.launch "job-1" t0 (some []) "2024-01-01T00:00:00+00:00" "runs/job_1" "Pipe",
   Op.cancel "job-1",
   Op.settle "job-1" none [("out", "42")]]

def jobW : JobInfo := newJob t0 (some []) "2024-01-01T00:00:00+00:00" "runs/job_w" "Pipe"

def regW : Registry := [("jw", jobW)]

def jobWCancelled : JobInfo := { jobW with status := "cancelled" }

def c2Ops : List Op :=
  [Op.launch "job-2" t0 (some []) "2024-01-01T00:00:00+00:00" "runs/job_2" "Pipe",
   Op.settle "job-2" (some "ValueError: boom") []]

def goodRun : DirEntry :=
  { name := "job_a", isDir := true, runInfoExists := true, mtime := 2,
    loadResult := some { outputs := [("y", StoreData.singleFile true 5)] },
    rawVersion := some (some "1.0") }

def corruptRun : DirEntry :=
  { name := "job_b", isDir := true, runInfoExists := true, mtime := 1,
    loadResult := none, rawVersion := none }

def c3Root : RootDir :=
  { folder := "runs", pathExists := true, isDir := true, entries := [goodRun, corruptRun] }

def strayFile : DirEntry :=
  { name := "notes.txt", isDir := false, runInfoExists := false, mtime := 0,
    loadResult := none, rawVersion := none }

def c5Root : RootDir :=
  { folder := "runs", pathExists := true, isDir := true, entries := [strayFile] }

def c5Listing : RunsListing :=
  { runs := [], totalCount := 0, folder := "runs", scannedDirectories := 1, errorMsg := none }

def runA : DirEntry :=
  { name := "job_a", isDir := true, runInfoExists := true, mtime := 5,
    loadResult := some { outputs := [] }, rawVersion := some (some "0.9") }

def runB : DirEntry :=
  { name := "job_b", isDir := true, runInfoExists := true, mtime := 3,
    loadResult := some { outputs := [] }, rawVersion := some (some "0.9") }

def c6Root : RootDir :=
  { folder := "runs", pathExists := true, isDir := true, entries := [runA, runB] }

def c6Listing : RunsListing :=
  { runs := [{ lastModified := 5, runFolder := "runs/job_a", allComplete := some true,
               totalOutputs := some 0, completedOutputs := some 0,
               pipefuncVersion := some "0.9" }],
    totalCount := 1, folder := "runs", scannedDirectories := 2, errorMsg := none }

theorem dictGet_dictSet_self (reg : Registry) (k : String) (v : JobInfo) :
    dictGet (dictSet reg k v) k = some v := by
  induction reg with
  | nil => simp [dictSet, dictGet]
  | cons hd tl ih =>
    obtain ⟨k1, v1⟩ := hd
    by_cases h : k1 = k
    · simp [dictSet, h, dictGet]
    · simp [dictSet, h, dictGet, ih]

theorem dictGet_dictSet_ne (reg : Registry) (k key : String) (v : JobInfo) (h : k ≠ key) :
    dictGet (dictSet reg k v) key = dictGet reg key := by
  induction reg with
  | nil => simp [dictSet, dictGet, h]
  | cons hd tl ih =>
    obtain ⟨k1, v1⟩ := hd
    by_cases h1 : k1 = k
    · subst h1
      simp [dictSet, dictGet, h]
    · simp [dictSet, h1, dictGet, ih]

theorem mem_dictSet (reg : Registry) (k : String) (v : JobInfo) (p : String × JobInfo)
    (hp : p ∈ dictSet reg k v) : p = (k, v) ∨ p ∈ reg := by
  induction reg with
  | nil => simpa [dictSet] using hp
  | cons hd tl ih =>
    obtain ⟨k1, v1⟩ := hd
    by_cases h1 : k1 = k
    · simp only [dictSet, if_pos h1] at hp
      rcases List.mem_cons.mp hp with h | h
      · left; exact h
      · right; exact List.mem_cons_of_mem _ h
    · simp only [dictSet, if_neg h1] at hp
      rcases List.mem_cons.mp hp with h | h
      · right; rw [h]; exact List.mem_cons_self _ _
      · rcases ih h with h2 | h2
        · left; exact h2
        · right; exact List.mem_cons_of_mem _ h2

theorem dictGet_mem (reg : Registry) (k : String) (v : JobInfo)
    (h : dictGet reg k = some v) : (k, v) ∈ reg := by
  induction reg with
  | nil => simp [dictGet] at h
  | cons hd tl ih =>
    obtain ⟨k1, v1⟩ := hd
    by_cases h1 : k1 = k
    · subst h1
      simp only [dictGet, if_pos rfl] at h
      obtain rfl := Option.some.inj h
      exact List.mem_cons_self _ _
    · simp only [dictGet, if_neg h1] at h
      exact List.mem_cons_of_mem _ (ih h)

/-- Case analysis on the registry `_cancel_job` leaves behind. -/
theorem cancelJob_registry_cases (reg : Registry) (jid : String) :
    (cancelJob reg jid).registry = reg ∨
    ∃ job, dictGet reg jid = some job ∧ job.task.done = false ∧
      (cancelJob reg jid).registry = dictSet reg jid { job with status := "cancelled" } := by
  unfold cancelJob
  cases hg : dictGet reg jid with
  | none => left; rfl
  | some job =>
    cases hd : job.task.done
    · right; exact ⟨job, rfl, hd, by simp [hd]⟩
    · left; simp [hd]

/-- Case analysis on the registry after a task settles. -/
theorem step_settle_cases (reg : Registry) (jid : String) (exc : Option String)
    (res : RenderedResults) :
    step reg (Op.settle jid exc res) = reg ∨
    ∃ job, dictGet reg jid = some job ∧
      step reg (Op.settle jid exc res) =
        dictSet reg jid { job with task := { done := true, exception := exc, result := res } } := by
  simp only [step]
  cases hg : dictGet reg jid with
  | none => left; rfl
  | some job =>
    cases hd : job.task.done
    · right; exact ⟨job, rfl, by simp [hd]⟩
    · left; simp [hd]

theorem statusOk_step (reg : Registry) (op : Op) (h : statusOk reg) : statusOk (step reg op) := by
  cases op with
  | launch jid t pr s rf n =>
    intro p hp
    rcases mem_dictSet _ _ _ _ hp with h1 | h1
    · rw [h1]; left; rfl
    · exact h p h1
  | cancel jid =>
    intro p hp
    rcases cancelJob_registry_cases reg jid with hr | ⟨job, _, _, hr⟩
    · rw [show step reg (Op.cancel jid) = (cancelJob reg jid).registry from rfl, hr] at hp
      exact h p hp
    · rw [show step reg (Op.cancel jid) = (cancelJob reg jid).registry from rfl, hr] at hp
      rcases mem_dictSet _ _ _ _ hp with h1 | h1
      · rw [h1]; right; rfl
      · exact h p h1
  | settle jid exc res =>
    intro p hp
    rcases step_settle_cases reg jid exc res with hr | ⟨job, hg, hr⟩
    · rw [hr] at hp
      exact h p hp
    · rw [hr] at hp
      rcases mem_dictSet _ _ _ _ hp with h1 | h1
      · rw [h1]
        exact h (jid, job) (dictGet_mem _ _ _ hg)
      · exact h p h1

theorem statusOk_foldl (ops : List Op) (reg : Registry) (h : statusOk reg) :
    statusOk (ops.foldl step reg) := by
  induction ops generalizing reg with
  | nil => exact h
  | cons op rest ih => exact ih _ (statusOk_step reg op h)

theorem statusOk_runOps (ops : List Op) : statusOk (runOps ops) :=
  statusOk_foldl ops [] (fun p hp => absurd hp (List.not_mem_nil p))

/-- `_check_job_status` only ever reports `"running"` or `"completed"`:
its status field is computed from `task.done()` alone. -/
theorem reportedStatus_values (reg : Registry) (jid : String) :
    reportedStatus reg jid = none ∨ reportedStatus reg jid = some "running" ∨
      reportedStatus reg jid = some "completed" := by
  unfold reportedStatus checkJobStatus
  cases hg : dictGet reg jid with
  | none => simp
  | some job =>
    cases hp : job.progress with
    | none => simp [hp]
    | some p =>
      cases hd : job.task.done
      · right; left; simp [hp, hd]
      · right; right; simp [hp, hd]

/-- Any status `_list_jobs` reports for a job id is the stored status of a
registry entry. -/
theorem listedStatus_mem (reg : Registry) (jid s : String)
    (h : listedStatus reg jid = some s) : ∃ p ∈ reg, p.2.status = s := by
  unfold listedStatus at h
  cases hf : (listJobs reg).jobs.find? (fun j => j.jobId == jid) with
  | none => rw [hf] at h; simp at h
  | some j =>
    rw [hf] at h
    have hjs : j.status = s := by simpa using h
    have hmem : j ∈ (listJobs reg).jobs := List.mem_of_find?_eq_some hf
    have hmap : (listJobs reg).jobs = reg.map (fun p => listedJob p.1 p.2) := rfl
    rw [hmap] at hmem
    rcases List.mem_map.mp hmem with ⟨p, hp, hpj⟩
    exact ⟨p, hp, by rw [← hjs, ← hpj]; rfl⟩

theorem count_false_add_count_true (l : List Bool) :
    l.count false + l.count true = l.length := by
  induction l with
  | nil => rfl
  | cons b t ih => cases b <;> simp [List.count_cons] <;> omega

theorem scanPhase_fst (folder : String) (l : List DirEntry) :
    (scanPhase folder l).1 = l.length := by
  induction l with
  | nil => rfl
  | cons d rest ih =>
    rw [scanPhase]
    by_cases h : d.isDir <;> simp [h, ih]

/-- The summarization loop preserves the sequence of `last_modified` keys and
the number of entries, and counts at most one success per entry. -/
theorem summarizeEntries_spec (stale : Option DirEntry) (l : List (DirEntry × RunEntry))
    (out : List RunEntry × Nat) (h : summarizeEntries stale l = Except.ok out) :
    out.1.map RunEntry.lastModified = l.map (fun p => p.2.lastModified) ∧
    out.1.length = l.length ∧ out.2 ≤ l.length := by
  induction l generalizing out with
  | nil =>
    simp only [summarizeEntries] at h
    obtain rfl := Except.ok.inj h
    exact ⟨rfl, rfl, Nat.le_refl _⟩
  | cons p rest ih =>
    obtain ⟨d, e⟩ := p
    rw [summarizeEntries] at h
    cases hl : d.loadResult with
    | none =>
      rw [hl] at h
      cases hs : summarizeEntries stale rest with
      | error msg => rw [hs] at h; exact absurd h (by simp)
      | ok r =>
        rw [hs] at h
        simp only [] at h
        obtain rfl := Except.ok.inj h
        rcases ih r hs with ⟨m1, m2, m3⟩
        refine ⟨?_, ?_, ?_⟩
        · simp [m1]
        · simp [m2]
        · simp; omega
    | some ri =>
      rw [hl] at h
      cases stale with
      | none => exact absurd h (by simp)
      | some sd =>
        cases he : sd.runInfoExists with
        | false => simp [he] at h
        | true =>
          simp only [he, Bool.not_true, Bool.false_eq_true, if_false] at h
          cases hv : sd.rawVersion with
          | none => rw [hv] at h; exact absurd h (by simp)
          | some ver =>
            rw [hv] at h
            cases hp : progressInfoFromDisk ri with
            | error msg => rw [hp] at h; exact absurd h (by simp)
            | ok op =>
              rw [hp] at h
              cases hs : summarizeEntries (some sd) rest with
              | error msg => rw [hs] at h; exact absurd h (by simp)
              | ok r =>
                rw [hs] at h
                simp only [] at h
                obtain rfl := Except.ok.inj h
                rcases ih r hs with ⟨m1, m2, m3⟩
                refine ⟨?_, ?_, ?_⟩
                · simp [m1]
                · simp [m2]
                · simp; omega

theorem mem_insertDescByMtime (x z : DirEntry × RunEntry) (l : List (DirEntry × RunEntry))
    (h : z ∈ insertDescByMtime x l) : z = x ∨ z ∈ l := by
  induction l with
  | nil => simpa [insertDescByMtime] using h
  | cons y ys ih =>
    rw [insertDescByMtime] at h
    by_cases hc : x.2.lastModified ≤ y.2.lastModified
    · rw [if_pos hc] at h
      rcases List.mem_cons.mp h with h1 | h1
      · right; rw [h1]; exact List.mem_cons_self _ _
      · rcases ih h1 with h2 | h2
        · left; exact h2
        · right; exact List.mem_cons_of_mem _ h2
    · rw [if_neg hc] at h
      rcases List.mem_cons.mp h with h1 | h1
      · left; exact h1
      · right; exact h1

theorem pairwise_insertDescByMtime (x : DirEntry × RunEntry) (l : List (DirEntry × RunEntry))
    (h : l.Pairwise mtimeGE) : (insertDescByMtime x l).Pairwise mtimeGE := by
  induction l with
  | nil => simp [insertDescByMtime]
  | cons y ys ih =>
    rw [insertDescByMtime]
    rcases List.pairwise_cons.mp h with ⟨hy, hys⟩
    by_cases hc : x.2.lastModified ≤ y.2.lastModified
    · rw [if_pos hc]
      refine List.pairwise_cons.mpr ⟨?_, ih hys⟩
      intro z hz
      rcases mem_insertDescByMtime x z ys hz with h1 | h1
      · rw [h1]; exact hc
      · exact hy z h1
    · rw [if_neg hc]
      push_neg at hc
      refine List.pairwise_cons.mpr ⟨?_, h⟩
      intro z hz
      rcases List.mem_cons.mp hz with h1 | h1
      · rw [h1]
        exact le_of_lt hc
      · exact le_trans (hy z h1) (le_of_lt hc)

theorem pairwise_sortAux (l acc : List (DirEntry × RunEntry)) (h : acc.Pairwise mtimeGE) :
    (l.foldl (fun a x => insertDescByMtime x a) acc).Pairwise mtimeGE := by
  induction l generalizing acc with
  | nil => exact h
  | cons x xs ih => exact ih _ (pairwise_insertDescByMtime x acc h)

theorem pairwise_sortDescByMtime (l : List (DirEntry × RunEntry)) :
    (sortDescByMtime l).Pairwise mtimeGE :=
  pairwise_sortAux l [] List.Pairwise.nil

/-- C7: for every job whose background task is already done, `_cancel_job`
returns the already-completed error response, leaves the registry (and hence
the job's stored status) unchanged, and does not invoke `task.cancel()`. -/
theorem cancel_on_done_task_noop (reg : Registry) (jid : String) (job : JobInfo)
    (h1 : dictGet reg jid = some job) (h2 : job.task.done = true) :
    cancelJob reg jid =
      { response := CancelResponse.alreadyDone jid, registry := reg, cancelRequested := false } := by
  unfold cancelJob
  rw [h1]
  simp [h2]

/-- Witness for C7 at a concrete one-job registry whose task is done. -/
theorem cancel_on_done_task_noop_witness :
    cancelJob regDone "jd" =
      { response := CancelResponse.alreadyDone "jd", registry := regDone, cancelRequested := false } :=
  cancel_on_done_task_noop regDone "jd" doneJob (by decide) (by decide)

/-- C8: for every job id absent from the registry, `_check_job_status` and
`_cancel_job` both return their structured not-found response; neither takes
any fallible step on that path (`_check_job_status` returns `Except.ok`, so
no modelled exception escapes, and `_cancel_job` leaves the registry alone
and requests no cancellation). -/
theorem missing_job_not_found (reg : Registry) (jid : String)
    (h : dictGet reg jid = none) :
    checkJobStatus reg jid = Except.ok CheckResult.notFound ∧
    cancelJob reg jid =
      { response := CancelResponse.notFound, registry := reg, cancelRequested := false } := by
  constructor
  · unfold checkJobStatus; rw [h]
  · unfold cancelJob; rw [h]

/-- Witness for C8 at the empty registry. -/
theorem missing_job_not_found_witness :
    checkJobStatus [] "ghost" = Except.ok CheckResult.notFound ∧
    cancelJob [] "ghost" =
      { response := CancelResponse.notFound, registry := [], cancelRequested := false } :=
  missing_job_not_found [] "ghost" rfl

/-- C9: for every single-file-backed output the disk inspector reports
fraction one with the file's size when the file exists and fraction zero
with zero bytes when it does not — never a partial fraction. -/
theorem single_file_all_or_nothing (ex : Bool) (sz : Nat) :
    inspectStore (StoreData.singleFile ex sz) =
      Except.ok (if ex then (ProgressVal.frac 1, sz) else (ProgressVal.frac 0, 0)) := by
  cases ex <;> rfl

/-- C10: for every registered job (with the progress object the module
asserts to exist), the `_check_job_status` response carries the pipeline's
results exactly when the task is done without exception; a task done with an
exception yields the exception string in the error field and no results; a
task still running yields neither. -/
theorem check_status_results_iff (reg : Registry) (jid : String) (job : JobInfo)
    (p : List (String × ProgressStatus))
    (h1 : dictGet reg jid = some job) (h2 : job.progress = some p) :
    ∃ r : JobStatusResponse,
      checkJobStatus reg jid = Except.ok (CheckResult.response r) ∧
      (r.results.isSome ↔ (job.task.done = true ∧ job.task.exception = none)) ∧
      (job.task.done = true → job.task.exception = none → r.results = some job.task.result) ∧
      (∀ e, job.task.done = true → job.task.exception = some e →
        r.errorMsg = some e ∧ r.results = none) ∧
      (job.task.done = false → r.errorMsg = none ∧ r.results = none) := by
  unfold checkJobStatus
  rw [h1]
  simp only [h2]
  refine ⟨_, rfl, ?_, ?_, ?_, ?_⟩
  · cases hd : job.task.done <;> cases he : job.task.exception <;> simp [hd, he]
  · intro hd he; simp [hd, he]
  · intro e hd he; simp [hd, he]
  · intro hd; simp [hd]

/-- Witness for C10 at a one-job registry whose task finished normally. -/
theorem check_status_results_iff_witness :
    ∃ r : JobStatusResponse,
      checkJobStatus regC10 "j10" = Except.ok (CheckResult.response r) ∧
      (r.results.isSome ↔ (jobC10.task.done = true ∧ jobC10.task.exception = none)) ∧
      (jobC10.task.done = true → jobC10.task.exception = none →
        r.results = some jobC10.task.result) ∧
      (∀ e, jobC10.task.done = true → jobC10.task.exception = some e →
        r.errorMsg = some e ∧ r.results = none) ∧
      (jobC10.task.done = false → r.errorMsg = none ∧ r.results = none) :=
  check_status_results_iff regC10 "j10" jobC10 [] (by decide) (by decide)

/-- C4: for every array-backed output with a fully resolved shape (and a
nonempty array, since Python would raise `ZeroDivisionError` on a zero
size), the inspector reports the fraction `filled_count / total_count`
derived from the completion mask, with the byte size summed over the files
under the storage folder; with an unresolved shape it reports the unknown
sentinel while the byte size is still computed from the files that exist. -/
theorem inspect_array_fraction (fa : FileArrayData)
    (hlen : fa.maskLinear.length = faSize fa) :
    (shapeIsResolved fa.shape = true → 0 < faSize fa →
      inspectStore (StoreData.array fa) =
        Except.ok (ProgressVal.frac ((countFilled fa : ℚ) / (faSize fa : ℚ)),
          fa.fileSizes.sum)) ∧
    (shapeIsResolved fa.shape = false →
      inspectStore (StoreData.array fa) =
        Except.ok (ProgressVal.unknown, fa.fileSizes.sum)) := by
  constructor
  · intro hres hpos
    have hne : faSize fa ≠ 0 := Nat.pos_iff_ne_zero.mp hpos
    have hms : countFilled fa + countMissing fa = faSize fa := by
      rw [← hlen]; exact count_false_add_count_true fa.maskLinear
    have hs0 : (faSize fa : ℚ) ≠ 0 := Nat.cast_ne_zero.mpr hne
    have harr : 1 - (countMissing fa : ℚ) / (faSize fa : ℚ) =
        (countFilled fa : ℚ) / (faSize fa : ℚ) := by
      field_simp
      rw [← hms]
      push_cast
      ring
    unfold inspectStore
    simp only [hres, if_true, hne, if_false]
    rw [harr]
  · intro hres
    unfold inspectStore
    simp [hres]

/-- Witness for C4 at a concrete resolved 2×2 array with three filled
positions. -/
theorem inspect_array_fraction_witness :
    inspectStore (StoreData.array faW) =
      Except.ok (ProgressVal.frac ((countFilled faW : ℚ) / (faSize faW : ℚ)),
        faW.fileSizes.sum) :=
  (inspect_array_fraction faW (by decide)).1 (by decide) (by decide)

/-- C1 (amended): the two status views are each one-sided.
`_check_job_status` derives its status purely from `task.done()` and can
only report `"running"` or `"completed"`, never `"cancelled"`; `_list_jobs`
reports the stored status, which over any reachable registry is only
`"running"` or `"cancelled"`, never `"completed"`.  So no single view
reports both terminal strings — but the two views are not synchronized with
each other (see the counterexample refuting the original claim). -/
theorem status_views_one_sided (ops : List Op) (jid : String) :
    reportedStatus (runOps ops) jid ≠ some "cancelled" ∧
    listedStatus (runOps ops) jid ≠ some "completed" := by
  constructor
  · rcases reportedStatus_values (runOps ops) jid with h | h | h <;> rw [h] <;> decide
  · intro hc
    rcases listedStatus_mem _ _ _ hc with ⟨p, hp, hs⟩
    rcases statusOk_runOps ops p hp with h | h
    · rw [hs] at h; exact absurd h (by decide)
    · rw [hs] at h; exact absurd h (by decide)

/-- C1 counterexample: launch a job, cancel it while running, and let the
task terminate.  `check_job_status` then reports `"completed"` while
`list_jobs` simultaneously reports `"cancelled"` for the same job id — the
registry does report completed-versus-cancelled disagreement, refuting the
claimed guarantee. -/
theorem status_views_disagree_after_cancel :
    reportedStatus (runOps c1Ops) "job-1" = some "completed" ∧
    listedStatus (runOps c1Ops) "job-1" = some "cancelled" := by decide

/-- C2 (amended): the stored status starts at `"running"`, over any reachable
registry takes only the values `"running"` or `"cancelled"`, and the only
transition any operation performs is `running → cancelled` (by `cancel_job`
on a not-yet-done task); a `"cancelled"` status never transitions further.
There is no `"failed"` state anywhere (see the counterexample: an errored
task is reported `"completed"`, with the stored status still `"running"`). -/
theorem stored_status_lifecycle :
    (∀ (t : AsyncTask) (pr : Option (List (String × ProgressStatus))) (s rf n : String),
      (newJob t pr s rf n).status = "running") ∧
    (∀ ops : List Op, ∀ p ∈ runOps ops,
      p.2.status = "running" ∨ p.2.status = "cancelled") ∧
    (∀ (reg : Registry) (op : Op) (jid : String) (job job2 : JobInfo),
      (∀ (jid2 : String) (t : AsyncTask) (pr : Option (List (String × ProgressStatus)))
        (s rf n : String), op = Op.launch jid2 t pr s rf n → dictGet reg jid2 = none) →
      dictGet reg jid = some job →
      (job.status = "running" ∨ job.status = "cancelled") →
      dictGet (step reg op) jid = some job2 →
      (job2.status = job.status ∨ (job.status = "running" ∧ job2.status = "cancelled"))) := by
  refine ⟨fun t pr s rf n => rfl, fun ops => statusOk_runOps ops, ?_⟩
  intro reg op jid job job2 hfresh h1 hstat h4
  cases op with
  | launch jid2 t pr s rf n =>
    have hf : dictGet reg jid2 = none := hfresh jid2 t pr s rf n rfl
    by_cases he : jid2 = jid
    · subst he
      rw [hf] at h1
      exact Option.noConfusion h1
    · rw [show step reg (Op.launch jid2 t pr s rf n) = dictSet reg jid2 (newJob t pr s rf n)
        from rfl, dictGet_dictSet_ne reg jid2 jid (newJob t pr s rf n) he, h1] at h4
      left
      rw [Option.some.inj h4]
  | cancel jid2 =>
    have hstep : step reg (Op.cancel jid2) = (cancelJob reg jid2).registry := rfl
    rcases cancelJob_registry_cases reg jid2 with hr | ⟨jobc, hg, hdone, hr⟩
    · rw [hstep, hr, h1] at h4
      left
      rw [Option.some.inj h4]
    · by_cases he : jid2 = jid
      · subst he
        rw [h1] at hg
        obtain rfl := Option.some.inj hg
        rw [hstep, hr, dictGet_dictSet_self] at h4
        obtain rfl := Option.some.inj h4
        rcases hstat with h | h
        · right; exact ⟨h, rfl⟩
        · left; rw [h]
      · rw [hstep, hr,
          dictGet_dictSet_ne reg jid2 jid { jobc with status := "cancelled" } he, h1] at h4
        left
        rw [Option.some.inj h4]
  | settle jid2 exc res =>
    rcases step_settle_cases reg jid2 exc res with hr | ⟨jobs, hg, hr⟩
    · rw [hr, h1] at h4
      left
      rw [Option.some.inj h4]
    · by_cases he : jid2 = jid
      · subst he
        rw [h1] at hg
        obtain rfl := Option.some.inj hg
        rw [hr, dictGet_dictSet_self] at h4
        obtain rfl := Option.some.inj h4
        left; rfl
      · rw [hr, dictGet_dictSet_ne reg jid2 jid _ he, h1] at h4
        left
        rw [Option.some.inj h4]

/-- Witness for C2: a fresh job starts at `"running"`, and cancelling that
concrete running job performs a transition covered by the lifecycle
theorem. -/
theorem stored_status_lifecycle_witness :
    (newJob t0 (some []) "2024-01-01T00:00:00+00:00" "runs/job_w" "Pipe").status = "running" ∧
    (jobWCancelled.status = jobW.status ∨
      (jobW.status = "running" ∧ jobWCancelled.status = "cancelled")) :=
  ⟨stored_status_lifecycle.1 t0 (some []) "2024-01-01T00:00:00+00:00" "runs/job_w" "Pipe",
   stored_status_lifecycle.2.2 regW (Op.cancel "jw") "jw" jobW jobWCancelled
     (fun jid2 t pr s rf n h => Op.noConfusion h) (by decide) (by decide) (by decide)⟩

/-- C2 counterexample: a job whose background task errored is reported
`"completed"` by `check_job_status` and `"running"` by `list_jobs` — neither
view ever produces the `"failed"` status the claim requires, and the
`JobInfo` status literal has no `"failed"` member at all. -/
theorem errored_job_not_reported_failed :
    reportedStatus (runOps c2Ops) "job-2" = some "completed" ∧
    listedStatus (runOps c2Ops) "job-2" = some "running" ∧
    reportedStatus (runOps c2Ops) "job-2" ≠ some "failed" ∧
    listedStatus (runOps c2Ops) "job-2" ≠ some "failed" := by decide

theorem truncateRuns_some (m : Int) (l : List (DirEntry × RunEntry)) :
    truncateRuns (some m) l = if 0 < m then l.take m.toNat else l := rfl

theorem truncateRuns_none (l : List (DirEntry × RunEntry)) :
    truncateRuns none l = l := rfl

/-- Inversion for a successful `_list_historical_runs` call on an existing
directory root: the result is the summarized truncated sorted scan. -/
theorem listHistoricalRuns_ok_inv (root : RootDir) (mr : Option Int) (r : RunsListing)
    (h1 : root.pathExists = true) (h2 : root.isDir = true)
    (h3 : listHistoricalRuns root mr = Except.ok r) :
    ∃ out : List RunEntry × Nat,
      summarizeEntries (scanPhase root.folder root.entries).2.1
          (truncateRuns mr (sortDescByMtime (scanPhase root.folder root.entries).2.2)) =
        Except.ok out ∧
      r = { runs := out.1, totalCount := out.2, folder := root.folder,
            scannedDirectories := (scanPhase root.folder root.entries).1, errorMsg := none } := by
  have hc1 : ¬((!root.pathExists) = true) := by rw [h1]; simp
  have hc2 : ¬((!root.isDir) = true) := by rw [h2]; simp
  unfold listHistoricalRuns at h3
  rw [if_neg hc1, if_neg hc2] at h3
  unfold listHistoricalRunsMain at h3
  cases hs : summarizeEntries (scanPhase root.folder root.entries).2.1
      (truncateRuns mr (sortDescByMtime (scanPhase root.folder root.entries).2.2)) with
  | error msg => rw [hs] at h3; exact absurd h3 (by simp)
  | ok out =>
    rw [hs] at h3
    exact ⟨out, rfl, (Except.ok.inj h3).symm⟩

/-- C3 (code bug): a root with a valid run `job_a` and a corrupt run `job_b`
(its metadata file exists but neither `RunInfo.load` nor `json.loads` can
parse it, and it is the last directory iterated).  The summarization loop
reads `pipefunc_version` through the stale `run_info_path` variable left by
the scan loop — `job_b`'s file — so summarizing the *valid* entry raises an
uncaught `JSONDecodeError` and the whole listing aborts, contradicting the
claim that one corrupt run never aborts the listing (and the failed
candidate is never dropped from the runs list either: the `continue` only
skips its summarization). -/
theorem corrupt_last_run_aborts_listing :
    listHistoricalRuns c3Root none = Except.error "JSONDecodeError" := rfl

/-- C5 counterexample: a root whose only entry is a regular file.  The
reported scanned count is 1 although zero subdirectories were examined, so
the count does not equal the number of subdirectories examined. -/
theorem scanned_includes_non_directory :
    listHistoricalRuns c5Root none = Except.ok c5Listing ∧
    (c5Root.entries.filter (fun d => d.isDir)).length = 0 ∧
    c5Listing.scannedDirectories ≠ (c5Root.entries.filter (fun d => d.isDir)).length :=
  ⟨rfl, rfl, by decide⟩

/-- C5 (amended): the reported scanned-directories count equals the number of
immediate entries of the root that were examined — non-directories included —
counting entries later dropped, and it is a counter separate from the number
of entries returned. -/
theorem scanned_counts_all_entries (root : RootDir) (mr : Option Int) (r : RunsListing)
    (h1 : root.pathExists = true) (h2 : root.isDir = true)
    (h3 : listHistoricalRuns root mr = Except.ok r) :
    r.scannedDirectories = root.entries.length := by
  rcases listHistoricalRuns_ok_inv root mr r h1 h2 h3 with ⟨out, hs, rfl⟩
  exact scanPhase_fst root.folder root.entries

/-- Witness for C5 (amended) at the concrete one-file root. -/
theorem scanned_counts_all_entries_witness :
    c5Listing.scannedDirectories = c5Root.entries.length :=
  scanned_counts_all_entries c5Root none c5Listing rfl rfl rfl

/-- C6: the returned entries are sorted descending by `last_modified`
(newest first), and with a positive `max_runs` the sorted list is truncated
before the summarization loop, so at most `max_runs` entries are summarized
(`total_count` bound) and returned (length bound). -/
theorem runs_sorted_and_truncated (root : RootDir) (mr : Option Int) (r : RunsListing)
    (h : listHistoricalRuns root mr = Except.ok r) :
    r.runs.Pairwise (fun a b => b.lastModified ≤ a.lastModified) ∧
    (∀ m : Int, mr = some m → 0 < m →
      r.runs.length ≤ m.toNat ∧ r.totalCount ≤ m.toNat) := by
  by_cases h1 : root.pathExists = true
  · by_cases h2 : root.isDir = true
    · rcases listHistoricalRuns_ok_inv root mr r h1 h2 h with ⟨out, hs, rfl⟩
      rcases summarizeEntries_spec _ _ _ hs with ⟨hmap, hlen, hcnt⟩
      constructor
      · have hp : (truncateRuns mr
            (sortDescByMtime (scanPhase root.folder root.entries).2.2)).Pairwise mtimeGE := by
          cases mr with
          | none => exact pairwise_sortDescByMtime _
          | some m =>
            rw [truncateRuns_some]
            by_cases hm : 0 < m
            · rw [if_pos hm]
              exact List.Pairwise.sublist (List.take_sublist _ _) (pairwise_sortDescByMtime _)
            · rw [if_neg hm]
              exact pairwise_sortDescByMtime _
        have hkey : ((truncateRuns mr
            (sortDescByMtime (scanPhase root.folder root.entries).2.2)).map
              (fun p => p.2.lastModified)).Pairwise (fun a b => b ≤ a) :=
          List.pairwise_map.mpr hp
        rw [← hmap] at hkey
        exact List.pairwise_map.mp hkey
      · intro m hm hmp
        subst hm
        have htk : (truncateRuns (some m)
            (sortDescByMtime (scanPhase root.folder root.entries).2.2)).length ≤ m.toNat := by
          rw [truncateRuns_some, if_pos hmp]
          exact List.length_take_le _ _
        exact ⟨le_trans (le_of_eq hlen) htk, le_trans hcnt htk⟩
    · have hb : root.isDir = false := by
        cases hx : root.isDir
        · rfl
        · exact absurd hx h2
      have hc1 : ¬((!root.pathExists) = true) := by rw [h1]; simp
      have hval : listHistoricalRuns root mr =
          Except.ok
            { runs := [], totalCount := 0, folder := root.folder,
              scannedDirectories := 0,
              errorMsg := some (root.folder ++ " is not a directory") } := by
        unfold listHistoricalRuns
        rw [if_neg hc1, hb]
        rfl
      rw [hval] at h
      obtain rfl := (Except.ok.inj h).symm
      exact ⟨List.Pairwise.nil, fun m hm hmp => ⟨Nat.zero_le _, Nat.zero_le _⟩⟩
  · have hb : root.pathExists = false := by
      cases hx : root.pathExists
      · rfl
      · exact absurd hx h1
    have hval : listHistoricalRuns root mr =
        Except.ok
          { runs := [], totalCount := 0, folder := root.folder,
            scannedDirectories := 0,
            errorMsg := some ("Folder " ++ root.folder ++ " does not exist") } := by
      unfold listHistoricalRuns
      rw [hb]
      rfl
    rw [hval] at h
    obtain rfl := (Except.ok.inj h).symm
    exact ⟨List.Pairwise.nil, fun m hm hmp => ⟨Nat.zero_le _, Nat.zero_le _⟩⟩

/-- Witness for C6 at a concrete root with two valid runs and `max_runs=1`:
the single surviving entry is the newest one and both bounds hold. -/
theorem runs_sorted_and_truncated_witness :
    c6Listing.runs.Pairwise (fun a b => b.lastModified ≤ a.lastModified) ∧
    c6Listing.runs.length ≤ (1 : Int).toNat ∧ c6Listing.totalCount ≤ (1 : Int).toNat := by
  have h := runs_sorted_and_truncated c6Root (some 1) c6Listing rfl
  exact ⟨h.1, (h.2 1 rfl (by decide)).1, (h.2 1 rfl (by decide)).2⟩

end PipefuncMcp
